import Mathlib

/-!
Verification of the YC people scraper (src/yc.py, src/table.py).

The Python code is shallowly embedded: dictionaries produced by the
pipeline become structures, Python exceptions become an explicit
`Except PyErr` result, and network responses are supplied by oracles
(functions from candidate strings / attempt indices to responses).
-/

namespace YC

/-- Python exception classes that the embedded code can raise. -/
inductive PyErr where
  | valueError
  | typeError
  | attributeError
deriving DecidableEq, Repr

/-! ## String helpers (embedding Python str operations on small data) -/

/-- Whether the first list is a prefix of the second (char-by-char). -/
def hasPfx : List Char → List Char → Bool
  | [], _ => true
  | _ :: _, [] => false
  | a :: as, b :: bs => a == b && hasPfx as bs

/-- Whether `needle` occurs as a contiguous sublist of the second argument.
Embeds the Python substring test `needle in hay`. -/
def subListOf (needle : List Char) : List Char → Bool
  | [] => needle.isEmpty
  | b :: bs => hasPfx needle (b :: bs) || subListOf needle bs

/-- `needle in hay` on strings (Python substring containment). -/
def strContains (hay needle : String) : Bool :=
  subListOf needle.data hay.data

/-- Python `str.strip()`: drop whitespace from both ends. -/
def pyStrip (s : String) : String :=
  String.mk (((s.data.dropWhile Char.isWhitespace).reverse.dropWhile
    Char.isWhitespace).reverse)

/-- Python `str.startswith(pre)`. -/
def pyStartsWith (s pre : String) : Bool :=
  hasPfx pre.data s.data

/-- Worker for `pySplit`: accumulates the current token (reversed). -/
def pySplitGo : List Char → List Char → List String
  | [], acc => if acc.isEmpty then [] else [String.mk acc.reverse]
  | c :: cs, acc =>
    if c.isWhitespace then
      if acc.isEmpty then pySplitGo cs []
      else String.mk acc.reverse :: pySplitGo cs []
    else pySplitGo cs (c :: acc)

/-- Python `str.split()` with no argument: split on whitespace runs,
producing no empty tokens. -/
def pySplit (s : String) : List String :=
  pySplitGo s.data []

/-- Python `int(s)` on a string: optional surrounding whitespace, optional
sign, at least one digit.  Returns `none` where Python raises ValueError. -/
def pyParseInt (s : String) : Option Int :=
  let t := (s.data.dropWhile Char.isWhitespace).reverse.dropWhile
    Char.isWhitespace |>.reverse
  let (neg, ds) : Bool × List Char :=
    match t with
    | '-' :: rest => (true, rest)
    | '+' :: rest => (false, rest)
    | _ => (false, t)
  if ds.isEmpty || !(ds.all Char.isDigit) then none
  else
    let n : Nat := ds.foldl (fun a c => a * 10 + (c.toNat - 48)) 0
    some (if neg then -(n : Int) else (n : Int))

/-! ## table.py data model

An entry of a person's `profile["hn_profiles"]` list as seen by table.py.
The pipeline (yc.py `_fetch_hn_details`) produces dicts with keys
`username`, `created`, `karma`, `about`; `karma` is the text of the HN
page's karma cell or None.  `KarmaVal` also models a missing key and a
JSON integer, because table.py reads arbitrary JSON. -/

/-- State of the `karma` entry of an hn_profiles dict. -/
inductive KarmaVal where
  | missing
  | vnone
  | vstr (s : String)
  | vint (n : Int)
deriving DecidableEq, Repr

/-- One element of `profile["hn_profiles"]` (table.py view). -/
structure TRecord where
  username : Option String
  created : Option String
  karma : KarmaVal
  about : Option String
deriving DecidableEq, Repr

/-- Python `int(u.get("karma", 0))`: missing key falls back to the int 0;
a present None raises TypeError; a string is parsed (ValueError on
failure). -/
def pyIntKarma : KarmaVal → Except PyErr Int
  | .missing => .ok 0
  | .vnone => .error .typeError
  | .vint n => .ok n
  | .vstr s =>
    match pyParseInt s with
    | some n => .ok n
    | none => .error .valueError

/-- The parsed karma key where it parses, 0 otherwise (used only to state
theorems; coincides with the real key under an all-parseable hypothesis). -/
def keyD (r : TRecord) : Int :=
  match pyIntKarma r.karma with
  | .ok k => k
  | .error _ => 0

/-- Loop of Python `max(..., key=...)`: keep the current best, replace it
only on a strictly greater key (so ties keep the earlier element); a key
computation that raises aborts the whole `max`. -/
def maxKarmaGo (best : TRecord) (bestK : Int) :
    List TRecord → Except PyErr TRecord
  | [] => .ok best
  | r :: rs =>
    match pyIntKarma r.karma with
    | .error e => .error e
    | .ok k =>
      if bestK < k then maxKarmaGo r k rs else maxKarmaGo best bestK rs

/-- `max(hn_profiles, key=lambda u: int(u.get("karma", 0)))`. -/
def maxKarma : List TRecord → Except PyErr TRecord
  | [] => .error .valueError
  | r :: rs =>
    match pyIntKarma r.karma with
    | .error e => .error e
    | .ok k => maxKarmaGo r k rs

/-- table.py `get_top_username` (lines 18-25): an empty `hn_profiles` list
(`if not hn_profiles:`) gives None; the `try` catches only ValueError
(returning None); any other exception, in particular the TypeError from
`int(None)`, propagates. -/
def get_top_username : List TRecord → Except PyErr (Option TRecord)
  | [] => .ok none
  | r :: rs =>
    match maxKarma (r :: rs) with
    | .ok m => .ok (some m)
    | .error .valueError => .ok none
    | .error e => .error e

/-- A person dict as table.py reads it from JSON.  `hn_profiles` stands for
`person.get("profile", {}).get("hn_profiles", [])` (missing levels give
the empty list). -/
structure Person where
  name : Option String
  title : Option String
  category : Option String
  hn_profiles : List TRecord
deriving DecidableEq, Repr

/-- table.py `get_users_by_category`, `some` branch: the list comprehension
`[person for person in data if person.get("category") == category]`. -/
def listCompCategory (c : String) : List Person → List Person
  | [] => []
  | p :: ps =>
    if p.category == some c then p :: listCompCategory c ps
    else listCompCategory c ps

/-- table.py `get_users_by_category` (lines 12-15). -/
def get_users_by_category (data : List Person) : Option String → List Person
  | none => data
  | some c => listCompCategory c data

/-- The `karma` value the CSV row carries: `top_profile.get("karma")`
(no default, so a missing key reads as None). -/
def karmaWritten : KarmaVal → KarmaVal
  | .missing => .vnone
  | k => k

/-- One CSV row of table.py `export_to_csv`. -/
structure Row where
  name : Option String
  title : Option String
  category : Option String
  hn_username : Option String
  email : String
  created : Option String
  karma : KarmaVal
  about : Option String
deriving DecidableEq, Repr

/-- The row written for one person with top profile `t`:
`email = f"{username}@ycombinator.com" if username else ""` (a missing or
empty username is falsy). -/
def mkRow (p : Person) (t : TRecord) : Row :=
  { name := p.name
    title := p.title
    category := p.category
    hn_username := t.username
    email :=
      match t.username with
      | some u => if u ≠ "" then u ++ "@ycombinator.com" else ""
      | none => ""
    created := t.created
    karma := karmaWritten t.karma
    about := t.about }

/-- table.py `export_to_csv` (lines 28-51), returning the rows written
(the header and file I/O are outside the model).  A person whose
`get_top_username` is None (`if top_profile:` falsy) produces no row; an
uncaught exception from `get_top_username` propagates.  Profile dicts
produced by the pipeline are non-empty, so dict truthiness coincides with
the None test here. -/
def export_to_csv : List Person → Except PyErr (List Row)
  | [] => .ok []
  | p :: ps =>
    match get_top_username p.hn_profiles with
    | .error e => .error e
    | .ok none => export_to_csv ps
    | .ok (some t) =>
      match export_to_csv ps with
      | .error e => .error e
      | .ok rows => .ok (mkRow p t :: rows)

/-! ## yc.py: normalization and candidate generation -/

/-- NFKD decomposition of one character, modelling
`unicodedata.normalize('NFKD', ...)` on the Latin-1 letters this
development exercises; other characters decompose to themselves. -/
def nfkdChar (c : Char) : List Char :=
  if c = 'é' then ['e', Char.ofNat 0x301]
  else if c = 'è' then ['e', Char.ofNat 0x300]
  else if c = 'á' then ['a', Char.ofNat 0x301]
  else if c = 'à' then ['a', Char.ofNat 0x300]
  else if c = 'ö' then ['o', Char.ofNat 0x308]
  else if c = 'ü' then ['u', Char.ofNat 0x308]
  else if c = 'ñ' then ['n', Char.ofNat 0x303]
  else [c]

/-- `unicodedata.combining(c) != 0` for the combining diacritical marks
block used by the decompositions above. -/
def isCombining (c : Char) : Bool :=
  0x300 ≤ c.toNat && c.toNat ≤ 0x36F

/-- yc.py `normalize` (lines 126-136): NFKD-decompose, drop combining
marks, lowercase. -/
def normalize (text : String) : String :=
  String.mk ((((text.data.map nfkdChar).flatten).filter
    (fun c => !isCombining c)).map Char.toLower)

/-- The candidate list built in `find_hn_usernames` (yc.py lines 151-168):
tokens of the normalized name; empty input gives no candidates; otherwise
the nine permutations, in source order, with `norm.replace(" ", "")` as
the last entry.  No deduplication is applied to this list. -/
def probe_candidates (full_name : String) : List String :=
  let norm := normalize full_name
  match pySplit norm with
  | [] => []
  | t0 :: rest =>
    let first := t0
    let lastTok := rest.getLastD t0
    [first,
     lastTok,
     first ++ lastTok,
     lastTok ++ first,
     first ++ "." ++ lastTok,
     first ++ "_" ++ lastTok,
     String.mk (first.data.take 1) ++ lastTok,
     first ++ String.mk (lastTok.data.take 1),
     String.mk (norm.data.filter (fun c => c ≠ ' '))]

/-! ## yc.py: response pages and the resolver `_fetch_hn_details` -/

/-- A td cell of the parsed profile page together with the text of its
next sibling td, if it has one.  `label` is the cell's own text;
`sibling` is `find_next_sibling('td')` already rendered with
`get_text(' ', strip=True)`. -/
structure TdRow where
  label : String
  sibling : Option String
deriving DecidableEq, Repr

/-- The queries yc.py runs against `BeautifulSoup(text)`: the stripped
text of the `a.hnuser` tag if present, and the td cells in document
order. -/
structure Page where
  userTag : Option String
  rows : List TdRow
deriving DecidableEq, Repr

/-- yc.py `get_value(label)` (lines 220-226): first td whose stripped text
starts with the label; its sibling td's text, guarded (`if val_td else
None`). -/
def get_value (pg : Page) (label : String) : Option String :=
  match pg.rows.find? (fun r => pyStartsWith (pyStrip r.label) label) with
  | some r => r.sibling
  | none => none

/-- The `about` extraction (yc.py lines 230-235): unlike `get_value`, the
sibling lookup is NOT guarded — `about_td.find_next_sibling('td')
.get_text(...)` raises AttributeError when the about cell has no
following td. -/
def aboutValue (pg : Page) : Except PyErr (Option String) :=
  match pg.rows.find? (fun r => pyStartsWith (pyStrip r.label) "about:") with
  | none => .ok none
  | some r =>
    match r.sibling with
    | some s => .ok (some s)
    | none => .error .attributeError

/-- One resolved HN profile dict (yc.py lines 237-242). -/
structure HNInfo where
  username : String
  created : Option String
  karma : Option String
  about : Option String
deriving DecidableEq, Repr

/-- Parsing a profile page body (yc.py lines 216-242): username falls back
to the probed candidate when the page has no `a.hnuser` tag; the about
extraction can raise. -/
def parseDetails (candidate : String) (pg : Page) : Except PyErr HNInfo :=
  let username :=
    match pg.userTag with
    | some t => t
    | none => candidate
  match aboutValue pg with
  | .error e => .error e
  | .ok ab =>
    .ok { username := username
          created := get_value pg "created:"
          karma := get_value pg "karma:"
          about := ab }

/-- The body of one HTTP response: the raw text (used for the marker
substring checks) and its parsed page. -/
structure Body where
  text : String
  page : Page
deriving DecidableEq, Repr

/-- The outcome of one `session.get` attempt: an exception raised inside
the `try` (connection/timeout/read failure), or a status code with a
body. -/
inductive AttemptResult where
  | exn
  | resp (status : Nat) (body : Body)
deriving DecidableEq, Repr

/-- The transient-service-error marker checked first (yc.py line 210). -/
def troubleMarker : String :=
  "We\x27re having some trouble serving your request"

/-- The hard not-found marker checked second (yc.py line 213). -/
def noSuchUserMarker : String := "No such user."

/-- The retry loop of `_fetch_hn_details` (yc.py lines 200-243).  `i` is
the number of attempts already performed, the second argument the
attempts remaining.  Returns the result together with the number of
attempts (GET requests) performed.  A non-200 status, an exception in the
`try`, or the trouble marker continue to the next attempt (the proxy
re-selection per attempt has no effect on control flow and is not
modelled); the no-such-user marker returns None at once; otherwise the
body is parsed, and a parse exception propagates (it is outside the
`try`). -/
def fetchGo (oracle : Nat → AttemptResult) (candidate : String) :
    Nat → Nat → Except PyErr (Option HNInfo) × Nat
  | i, 0 => (.ok none, i)
  | i, fuel + 1 =>
    match oracle i with
    | .exn => fetchGo oracle candidate (i + 1) fuel
    | .resp status body =>
      if status ≠ 200 then fetchGo oracle candidate (i + 1) fuel
      else if strContains body.text troubleMarker then
        fetchGo oracle candidate (i + 1) fuel
      else if strContains body.text noSuchUserMarker then (.ok none, i + 1)
      else
        match parseDetails candidate body.page with
        | .ok d => (.ok (some d), i + 1)
        | .error e => (.error e, i + 1)

/-- yc.py `_fetch_hn_details(candidate, attempts)` with the per-attempt
responses supplied by `oracle`; also returns how many attempts ran. -/
def fetch_hn_details (oracle : Nat → AttemptResult) (candidate : String)
    (attempts : Nat) : Except PyErr (Option HNInfo) × Nat :=
  fetchGo oracle candidate 0 attempts

/-! ## yc.py: cache, `find_hn_usernames`, `_enrich_one`

In the sequential model the per-candidate resolution is summarized by a
deterministic oracle `fetch : String -> Except PyErr (Option HNInfo)`
(the value of `_fetch_hn_details(candidate)`); exceptions it raises
propagate, matching the absence of any try around the candidate loop. -/

/-- `self.username_cache`: a Python dict, keyed by the full name. -/
abbrev Cache := List (String × List HNInfo)

/-- Dict lookup (`full_name in self.username_cache` plus indexing). -/
def cacheLookup (c : Cache) (k : String) : Option (List HNInfo) :=
  (c.find? (fun p => p.1 == k)).map (fun p => p.2)

/-- Dict store `self.username_cache[full_name] = unique`. -/
def cacheInsert (c : Cache) (k : String) (v : List HNInfo) : Cache :=
  (k, v) :: c

/-- The candidate loop of `find_hn_usernames` (yc.py lines 171-174): one
`_fetch_hn_details` call per candidate, in order, duplicates included;
found details are collected, a raised exception propagates. -/
def fetchLoopAll (fetch : String → Except PyErr (Option HNInfo)) :
    List String → Except PyErr (List HNInfo)
  | [] => .ok []
  | c :: cs =>
    match fetch c with
    | .error e => .error e
    | .ok none => fetchLoopAll fetch cs
    | .ok (some d) =>
      match fetchLoopAll fetch cs with
      | .error e => .error e
      | .ok ds => .ok (d :: ds)

/-- The dedup pass of `find_hn_usernames` (yc.py lines 176-183): keep the
first occurrence of each truthy username. -/
def dedupeByUsername : List HNInfo → List String → List HNInfo
  | [], _ => []
  | i :: is, seen =>
    if i.username ≠ "" ∧ ¬ i.username ∈ seen then
      i :: dedupeByUsername is (i.username :: seen)
    else dedupeByUsername is seen

/-- yc.py `find_hn_usernames` (lines 138-186).  Returns the result list,
the updated cache, and the list of candidates actually fetched (the
trace, empty on a cache hit).  A name with no tokens returns `[]`
without writing the cache (line 153-154). -/
def find_hn_usernames (fetch : String → Except PyErr (Option HNInfo))
    (cache : Cache) (full_name : String) :
    Except PyErr (List HNInfo × Cache × List String) :=
  match cacheLookup cache full_name with
  | some v => .ok (v, cache, [])
  | none =>
    match probe_candidates full_name with
    | [] => .ok ([], cache, [])
    | c :: cs =>
      match fetchLoopAll fetch (c :: cs) with
      | .error e => .error e
      | .ok ds =>
        let unique := dedupeByUsername ds []
        .ok (unique, cacheInsert cache full_name unique, c :: cs)

/-- Split a character list on a separator character. -/
def splitOnChar (sep : Char) : List Char → List (List Char)
  | [] => [[]]
  | c :: cs =>
    if c == sep then [] :: splitOnChar sep cs
    else
      match splitOnChar sep cs with
      | [] => [[c]]
      | f :: fs => (c :: f) :: fs

/-- Split a query field at its first `=`; fields with no `=` are dropped
by `parse_qs` (default arguments). -/
def splitFirstEq : List Char → Option (List Char × List Char)
  | [] => none
  | c :: cs =>
    if c == '=' then some ([], cs)
    else
      match splitFirstEq cs with
      | none => none
      | some (k, v) => some (c :: k, v)

/-- Characters after the first `?` of a URL (none when there is no query
part), as `urllib.parse.urlparse(...).query` sees them. -/
def dropToQuery : List Char → Option (List Char)
  | [] => none
  | c :: cs => if c == '?' then some cs else dropToQuery cs

/-- Truncate the query at a `#` fragment. -/
def takeToHash : List Char → List Char
  | [] => []
  | c :: cs => if c == '#' then [] else c :: takeToHash cs

/-- `urllib.parse.parse_qs(query)` restricted to what yc.py consumes:
fields split on `&`, pairs split at the first `=`, blank values dropped
(keep_blank_values is False); percent-decoding is not modelled. -/
def qsPairs (q : List Char) : List (String × String) :=
  (splitOnChar '&' q).filterMap (fun f =>
    match splitFirstEq f with
    | none => none
    | some (k, v) =>
      if v.isEmpty then none else some (String.mk k, String.mk v))

/-- The explicit HN id of `_enrich_one` (yc.py lines 348-353): the `id`
query parameter of the `yc` social link, when both exist
(`params['id'][0]` is the first `id` value). -/
def mainHnOf (social_links : List (String × String)) : Option String :=
  match (social_links.find? (fun p => p.1 == "yc")).map (fun p => p.2) with
  | none => none
  | some url =>
    match dropToQuery url.data with
    | none => none
    | some q =>
      ((qsPairs (takeToHash q)).find? (fun p => p.1 == "id")).map
        (fun p => p.2)

/-- yc.py `_enrich_one` (lines 319-372), from the point where the social
links are known (the social-link fetch sits in its own try/except that
swallows everything, so its only observable effect is the resulting
`social_links` dict, passed in here).  The explicit id is resolved first
and added unconditionally when found; then the generator variants, each
kept when its resolved username is truthy and differs from the probed
explicit id (a comparison against None is always unequal).  Returns the
entity's `hn_profiles` list, the updated cache and the fetch trace. -/
def enrich_one (fetch : String → Except PyErr (Option HNInfo))
    (social_links : List (String × String)) (cache : Cache) (name : String) :
    Except PyErr (List HNInfo × Cache × List String) :=
  let main_hn := mainHnOf social_links
  let headRes : Except PyErr (List HNInfo × List String) :=
    match main_hn with
    | none => .ok ([], [])
    | some m =>
      match fetch m with
      | .error e => .error e
      | .ok none => .ok ([], [m])
      | .ok (some d) => .ok ([d], [m])
  match headRes with
  | .error e => .error e
  | .ok (head, tr1) =>
    match find_hn_usernames fetch cache name with
    | .error e => .error e
    | .ok (variants, cache2, tr2) =>
      let tail := variants.filter (fun i =>
        i.username != "" &&
          (match main_hn with
           | none => true
           | some m => i.username != m))
      .ok (head ++ tail, cache2, tr1 ++ tr2)

/-! ## Interleaved execution of concurrent enrichment tasks

yc.py runs one `_enrich_one` task per person on asyncio's single-threaded
loop (lines 302-317); control switches between tasks only at `await`
points, i.e. at the network calls.  The machine below models several
`find_hn_usernames` tasks: each resume runs the code between two awaits
atomically.  `calls` counts issued candidate lookups
(`_fetch_hn_details` invocations), `inFlight` the lookups currently
in flight, `semAvail` the permits of `self.semaphore` — which no code on
the enrichment path ever acquires (its only use is in `fetch_html`,
line 105). -/

/-- Where one `find_hn_usernames` task is suspended. -/
inductive TaskState where
  | notStarted (name : String)
  | running (name : String) (remaining : List String) (acc : List HNInfo)
  | finished (result : List HNInfo)
deriving DecidableEq, Repr

/-- Shared state of the cooperative run. -/
structure RunState where
  cache : Cache
  calls : Nat
  inFlight : Nat
  maxInFlight : Nat
  semAvail : Nat
  tasks : List TaskState
deriving DecidableEq, Repr

/-- Resume one task: from `notStarted`, check the cache (lines 148-149)
and, on a miss, issue the first candidate lookup and suspend; from
`running`, receive the pending lookup's result and either issue the next
lookup or dedupe, write the cache (line 185) and finish.  The semaphore
is untouched throughout, as in the source. -/
def resumeTask (f : String → Option HNInfo) (st : RunState) :
    TaskState → RunState × TaskState
  | .notStarted name =>
    match cacheLookup st.cache name with
    | some v => (st, .finished v)
    | none =>
      match probe_candidates name with
      | [] => (st, .finished [])
      | c :: cs =>
        ({ st with
            calls := st.calls + 1
            inFlight := st.inFlight + 1
            maxInFlight := max st.maxInFlight (st.inFlight + 1) },
         .running name (c :: cs) [])
  | .running _ [] acc => (st, .finished (dedupeByUsername acc []))
  | .running name (c :: rest) acc =>
    let acc2 :=
      match f c with
      | some d => acc ++ [d]
      | none => acc
    match rest with
    | [] =>
      let uniq := dedupeByUsername acc2 []
      ({ st with
          inFlight := st.inFlight - 1
          cache := cacheInsert st.cache name uniq },
       .finished uniq)
    | _ :: _ =>
      ({ st with calls := st.calls + 1 }, .running name rest acc2)
  | .finished r => (st, .finished r)

/-- Resume the task with index `i` (indices outside the task list are
no-ops). -/
def stepAt (f : String → Option HNInfo) (st : RunState) (i : Nat) :
    RunState :=
  match st.tasks.get? i with
  | none => st
  | some ts =>
    let p := resumeTask f st ts
    { p.1 with tasks := p.1.tasks.set i p.2 }

/-- Run a schedule: the list of task indices resumed, in order. -/
def runSched (f : String → Option HNInfo) :
    RunState → List Nat → RunState
  | st, [] => st
  | st, i :: rest => runSched f (stepAt f st i) rest

/-! ## Theorems -/

/-- Whether an embedded Python computation finished without raising. -/
def isOkE {α : Type} : Except PyErr α → Bool
  | .ok _ => true
  | .error _ => false

/-- The pure selection loop that `maxKarmaGo` implements when no key
computation raises: keep the current best, replace only on a strictly
greater key. -/
def pickMax (best : TRecord) (bestK : Int) : List TRecord → TRecord
  | [] => best
  | r :: rs =>
    if bestK < keyD r then pickMax r (keyD r) rs else pickMax best bestK rs

theorem maxKarmaGo_eq_pickMax (l : List TRecord)
    (hl : ∀ r ∈ l, isOkE (pyIntKarma r.karma) = true) :
    ∀ best bestK, pyIntKarma best.karma = .ok bestK →
      maxKarmaGo best bestK l = .ok (pickMax best bestK l) := by
  induction l with
  | nil => intro best bestK _; rfl
  | cons r rs ih =>
    intro best bestK _
    have hr := hl r (List.mem_cons_self r rs)
    cases hk : pyIntKarma r.karma with
    | error e => rw [hk] at hr; simp [isOkE] at hr
    | ok k =>
      have hkey : keyD r = k := by simp [keyD, hk]
      have ih2 := ih (fun s hs => hl s (List.mem_cons_of_mem r hs))
      by_cases hlt : bestK < k
      · simp only [maxKarmaGo, hk, pickMax, hkey, if_pos hlt]
        exact ih2 r k hk
      · simp only [maxKarmaGo, hk, pickMax, hkey, if_neg hlt]
        exact ih2 best bestK (by assumption)

theorem pickMax_split (l : List TRecord) : ∀ best bestK, keyD best = bestK →
    ∃ l1 l2, best :: l = l1 ++ pickMax best bestK l :: l2 ∧
      (∀ s ∈ l1, keyD s < keyD (pickMax best bestK l)) ∧
      (∀ s ∈ best :: l, keyD s ≤ keyD (pickMax best bestK l)) := by
  induction l with
  | nil =>
    intro best bestK _
    refine ⟨[], [], rfl, by simp, ?_⟩
    intro s hs
    rw [List.mem_singleton.1 hs]
    exact le_refl _
  | cons r rs ih =>
    intro best bestK hbk
    by_cases hlt : bestK < keyD r
    · simp only [pickMax, if_pos hlt]
      obtain ⟨l1, l2, heq, hl1, hall⟩ := ih r (keyD r) rfl
      have hrm : keyD r ≤ keyD (pickMax r (keyD r) rs) :=
        hall r (List.mem_cons_self r rs)
      refine ⟨best :: l1, l2, ?_, ?_, ?_⟩
      · rw [List.cons_append, ← heq]
      · intro s hs
        rcases List.mem_cons.1 hs with h | h
        · rw [h, hbk]; exact lt_of_lt_of_le hlt hrm
        · exact hl1 s h
      · intro s hs
        rcases List.mem_cons.1 hs with h | h
        · rw [h, hbk]; exact le_of_lt (lt_of_lt_of_le hlt hrm)
        · exact hall s h
    · simp only [pickMax, if_neg hlt]
      obtain ⟨l1, l2, heq, hl1, hall⟩ := ih best bestK hbk
      cases l1 with
      | nil =>
        simp only [List.nil_append] at heq
        have hb : best = pickMax best bestK rs := (List.cons.inj heq).1
        refine ⟨[], r :: rs, ?_, by simp, ?_⟩
        · rw [List.nil_append, ← hb]
        · intro s hs
          rcases List.mem_cons.1 hs with h | h
          · rw [h]; exact hall best (List.mem_cons_self _ _)
          · rcases List.mem_cons.1 h with h2 | h2
            · rw [h2, ← hb, hbk]; exact le_of_not_lt hlt
            · exact hall s (List.mem_cons_of_mem best h2)
      | cons a l1' =>
        simp only [List.cons_append] at heq
        have ha : best = a := (List.cons.inj heq).1
        have hrs : rs = l1' ++ pickMax best bestK rs :: l2 :=
          (List.cons.inj heq).2
        have hbm : keyD best < keyD (pickMax best bestK rs) := by
          have h3 := hl1 a (List.mem_cons_self a l1')
          rwa [← ha] at h3
        refine ⟨best :: r :: l1', l2, ?_, ?_, ?_⟩
        · simp only [List.cons_append]
          rw [← hrs]
        · intro s hs
          rcases List.mem_cons.1 hs with h | h
          · rw [h]; exact hbm
          · rcases List.mem_cons.1 h with h2 | h2
            · rw [h2]
              calc keyD r ≤ bestK := le_of_not_lt hlt
                _ = keyD best := hbk.symm
                _ < _ := hbm
            · exact hl1 s (ha ▸ List.mem_cons_of_mem a h2)
        · intro s hs
          rcases List.mem_cons.1 hs with h | h
          · rw [h]; exact le_of_lt hbm
          · rcases List.mem_cons.1 h with h2 | h2
            · rw [h2]
              exact le_of_lt (lt_of_le_of_lt (hbk ▸ le_of_not_lt hlt) hbm)
            · exact hall s (List.mem_cons_of_mem best (hrs ▸ h2))

/-- The profiles of the C1 counterexample: karma values 5, None, 12, 12
(as the pipeline stores them: digit strings, or None when the HN page
shows no karma cell). -/
def c1CexList : List TRecord :=
  [⟨some "a", none, .vstr "5", none⟩,
   ⟨some "b", none, .vnone, none⟩,
   ⟨some "c", none, .vstr "12", none⟩,
   ⟨some "d", none, .vstr "12", none⟩]

/-- C1 counterexample: on matches with karma [5, None, 12, 12] the
selection does not return the first-seen match with score 12 — `int(None)`
raises TypeError, which `except ValueError` does not catch, so
`get_top_username` raises instead of returning any record. -/
theorem c1_counterexample :
    get_top_username c1CexList = .error .typeError ∧
    get_top_username c1CexList ≠
      .ok (some ⟨some "c", none, .vstr "12", none⟩) :=
  ⟨rfl, fun h => Except.noConfusion h⟩

/-- C1 (amended): when every match's karma parses as an integer (a missing
karma key reads as 0), the selected record is the first-seen match with
the maximum score: the list splits as `l1 ++ r :: l2` with every score in
`l1` strictly below `r`'s and no score above `r`'s.  A karma of None makes
the selection raise TypeError, and an unparseable karma string makes it
return None for the whole profile, rather than sorting below numeric
values. -/
theorem c1_top_match_selection (ps : List TRecord) (hne : ps ≠ [])
    (hok : ∀ r ∈ ps, isOkE (pyIntKarma r.karma) = true) :
    ∃ l1 r l2, ps = l1 ++ r :: l2 ∧
      get_top_username ps = .ok (some r) ∧
      (∀ s ∈ l1, keyD s < keyD r) ∧
      (∀ s ∈ ps, keyD s ≤ keyD r) := by
  cases ps with
  | nil => exact absurd rfl hne
  | cons p ps' =>
    have hp := hok p (List.mem_cons_self p ps')
    cases hk : pyIntKarma p.karma with
    | error e => rw [hk] at hp; simp [isOkE] at hp
    | ok k =>
      have hgo := maxKarmaGo_eq_pickMax ps'
        (fun r hr => hok r (List.mem_cons_of_mem p hr)) p k hk
      have hkey : keyD p = k := by simp [keyD, hk]
      obtain ⟨l1, l2, heq, hl1, hall⟩ := pickMax_split ps' p k hkey
      refine ⟨l1, pickMax p k ps', l2, heq, ?_, hl1,
        fun s hs => hall s (heq ▸ hs)⟩
      simp only [get_top_username, maxKarma, hk, hgo]

/-- The profiles of the C1 witness: karma values 5, 12, 12 all parse. -/
def c1wList : List TRecord :=
  [⟨some "a", none, .vstr "5", none⟩,
   ⟨some "c", none, .vstr "12", none⟩,
   ⟨some "d", none, .vstr "12", none⟩]

/-- C1 witness: the amended selection theorem at karma scores [5, 12, 12].
-/
theorem c1_top_match_selection_witness :
    ∃ l1 r l2, c1wList = l1 ++ r :: l2 ∧
      get_top_username c1wList = .ok (some r) ∧
      (∀ s ∈ l1, keyD s < keyD r) ∧
      (∀ s ∈ c1wList, keyD s ≤ keyD r) :=
  c1_top_match_selection c1wList (by decide) (by decide)

/-- Two enrichment tasks for the same display name, a run-long cache that
starts empty, and the default `max_concurrency` of 10 permits. -/
def initSameName : RunState :=
  ⟨[], 0, 0, 0, 10, [.notStarted "jane doe", .notStarted "jane doe"]⟩

/-- A schedule in which both tasks pass the cache check before either has
written the cache: start task 0, start task 1, then drive each to
completion. -/
def schedTwo : List Nat := [0, 1] ++ List.replicate 9 0 ++ List.replicate 9 1

/-- C2 (code bug): the cache is check-then-act with no lock or in-flight
future, so two concurrent requests for the same display name that
interleave at the network suspension points both miss the cache and each
run the full 9-candidate resolution sequence: 18 candidate lookups in
total where the claim requires exactly one sequence of 9. -/
theorem c2_cache_single_flight_violated :
    (runSched (fun _ => none) initSameName schedTwo).calls = 18 ∧
    (runSched (fun _ => none) initSameName schedTwo).tasks =
      [.finished [], .finished []] ∧
    (probe_candidates "jane doe").length = 9 :=
  ⟨rfl, rfl, rfl⟩

theorem dedupe_nodup (l : List HNInfo) : ∀ seen : List String,
    ((dedupeByUsername l seen).map HNInfo.username).Nodup ∧
    ∀ u ∈ (dedupeByUsername l seen).map HNInfo.username,
      ¬ u ∈ seen ∧ u ≠ "" := by
  induction l with
  | nil =>
    intro seen
    exact ⟨List.nodup_nil, by simp [dedupeByUsername]⟩
  | cons i is ih =>
    intro seen
    by_cases h : i.username ≠ "" ∧ ¬ i.username ∈ seen
    · obtain ⟨ih1, ih2⟩ := ih (i.username :: seen)
      simp only [dedupeByUsername, if_pos h, List.map_cons, List.nodup_cons]
      refine ⟨⟨?_, ih1⟩, ?_⟩
      · intro hmem
        exact (ih2 _ hmem).1 (List.mem_cons_self _ _)
      · intro u hu
        rcases List.mem_cons.1 hu with h2 | h2
        · rw [h2]; exact ⟨h.2, h.1⟩
        · obtain ⟨hni, hne⟩ := ih2 u h2
          exact ⟨fun hs => hni (List.mem_cons_of_mem _ hs), hne⟩
    · simp only [dedupeByUsername, if_neg h]
      exact ih seen

theorem fetchLoopAll_ok (fetch : String → Except PyErr (Option HNInfo))
    (h : ∀ c, isOkE (fetch c) = true) :
    ∀ cs, ∃ ds, fetchLoopAll fetch cs = .ok ds := by
  intro cs
  induction cs with
  | nil => exact ⟨[], rfl⟩
  | cons c cs ih =>
    obtain ⟨ds, hds⟩ := ih
    cases hc : fetch c with
    | error e =>
      have := h c
      rw [hc] at this
      simp [isOkE] at this
    | ok o =>
      cases o with
      | none => exact ⟨ds, by simp only [fetchLoopAll, hc, hds]⟩
      | some d => exact ⟨d :: ds, by simp only [fetchLoopAll, hc, hds]⟩

/-- C3 counterexample: for "Jane Doe" the probed candidate sequence is the
nine forms in order with "janedoe" occurring TWICE (positions 3 and 9):
the source applies no dedup to the candidate list it probes, only to the
resolved results afterwards. -/
theorem c3_counterexample :
    probe_candidates "Jane Doe" =
      ["jane", "doe", "janedoe", "doejane", "jane.doe", "jane_doe",
       "jdoe", "janed", "janedoe"] ∧
    (probe_candidates "Jane Doe").count "janedoe" = 2 :=
  ⟨rfl, rfl⟩

/-- C3 (amended): for every display name with at least one token and every
non-raising lookup oracle, an uncached `find_hn_usernames` probes exactly
the nine candidate forms in first/last/first+last/last+first/first.last/
first_last/first[0]+last/first+last[0]/all-concatenated order,
lowercased and diacritic-stripped, WITHOUT dedup (a duplicate form such
as janedoe is probed twice); deduplication by resolved username (first
occurrence kept, falsy usernames dropped) is applied to the resolved
results instead, so the returned list never repeats a username. -/
theorem c3_candidate_sequence (fetch : String → Except PyErr (Option HNInfo))
    (name : String) (htok : probe_candidates name ≠ [])
    (hok : ∀ c, isOkE (fetch c) = true) :
    ∃ l c2, find_hn_usernames fetch [] name =
        .ok (l, c2, probe_candidates name) ∧
      (l.map HNInfo.username).Nodup ∧
      ∀ u ∈ l.map HNInfo.username, u ≠ "" := by
  cases hpc : probe_candidates name with
  | nil => exact absurd hpc htok
  | cons c cs =>
    obtain ⟨ds, hds⟩ := fetchLoopAll_ok fetch hok (c :: cs)
    refine ⟨dedupeByUsername ds [], cacheInsert [] name (dedupeByUsername ds []),
      ?_, (dedupe_nodup ds []).1, fun u hu => ((dedupe_nodup ds []).2 u hu).2⟩
    simp only [find_hn_usernames, cacheLookup, List.find?_nil, hpc, hds]
    rfl

/-- C3 witness: the amended theorem at "Jane Doe" with an all-not-found
oracle. -/
theorem c3_candidate_sequence_witness :
    ∃ l c2, find_hn_usernames (fun _ => .ok none) [] "Jane Doe" =
        .ok (l, c2, probe_candidates "Jane Doe") ∧
      (l.map HNInfo.username).Nodup ∧
      ∀ u ∈ l.map HNInfo.username, u ≠ "" :=
  c3_candidate_sequence (fun _ => .ok none) "Jane Doe" (by decide)
    (fun _ => rfl)

/-- A lookup oracle under which the service canonicalizes: probing the
explicit id "alice" resolves to the username "resolvedalice", which the
candidate generator also reaches directly. -/
def fetchCanon : String → Except PyErr (Option HNInfo) := fun c =>
  if c == "alice" then .ok (some ⟨"resolvedalice", none, none, none⟩)
  else if c == "resolvedalice" then
    .ok (some ⟨"resolvedalice", none, none, none⟩)
  else .ok none

/-- The social links of the C4 counterexample: an explicit yc link with
`?id=alice`. -/
def canonSocials : List (String × String) :=
  [("yc", "https://news.ycombinator.com/user?id=alice")]

/-- The hn_profiles list `_enrich_one` builds in the C4 counterexample. -/
def c4CexResult : List HNInfo :=
  match enrich_one fetchCanon canonSocials [] "Resolvedalice" with
  | .ok (l, _, _) => l
  | .error _ => []

/-- C4 counterexample: the variant filter compares resolved usernames
against the PROBED explicit id (`uname != main_hn`), not against the
explicit match's resolved username, so when the service canonicalizes
`alice` to `resolvedalice` and a generated candidate also resolves to
`resolvedalice`, the final Profile holds two IdentityMatch entries with
that same username. -/
theorem c4_counterexample :
    (c4CexResult.map HNInfo.username).count "resolvedalice" = 2 ∧
    ¬ (c4CexResult.map HNInfo.username).Nodup := by
  exact ⟨rfl, by decide⟩

/-- A cache is well formed when every stored sequence (they are all
outputs of the dedup pass) has pairwise distinct, non-empty usernames. -/
def CacheWF (cache : Cache) : Prop :=
  ∀ k v, cacheLookup cache k = some v →
    (v.map HNInfo.username).Nodup ∧ ∀ u ∈ v.map HNInfo.username, u ≠ ""

theorem find_result_nodup (fetch : String → Except PyErr (Option HNInfo))
    (cache : Cache) (name : String) (v : List HNInfo) (c2 : Cache)
    (tr : List String) (hwf : CacheWF cache)
    (h : find_hn_usernames fetch cache name = .ok (v, c2, tr)) :
    (v.map HNInfo.username).Nodup ∧
    ∀ u ∈ v.map HNInfo.username, u ≠ "" := by
  unfold find_hn_usernames at h
  cases hcl : cacheLookup cache name with
  | some w =>
    rw [hcl] at h
    simp only [Except.ok.injEq, Prod.mk.injEq] at h
    obtain ⟨hv, -, -⟩ := h
    rw [← hv]
    exact hwf name w hcl
  | none =>
    rw [hcl] at h
    cases hpc : probe_candidates name with
    | nil =>
      rw [hpc] at h
      simp only [Except.ok.injEq, Prod.mk.injEq] at h
      obtain ⟨hv, -, -⟩ := h
      rw [← hv]
      simp
    | cons c cs =>
      rw [hpc] at h
      dsimp only at h
      cases hfl : fetchLoopAll fetch (c :: cs) with
      | error e => rw [hfl] at h; exact Except.noConfusion h
      | ok ds =>
        rw [hfl] at h
        simp only [Except.ok.injEq, Prod.mk.injEq] at h
        obtain ⟨hv, -, -⟩ := h
        rw [← hv]
        exact ⟨(dedupe_nodup ds []).1,
          fun u hu => ((dedupe_nodup ds []).2 u hu).2⟩

/-- C4 (amended): the Profile dedup invariant holds whenever the upstream
does not canonicalize the explicit id, i.e. when any match found for the
probed explicit id carries that id as its resolved username: then the
final hn_profiles list never contains two entries with the same resolved
username (the generated variants are deduped among themselves and
variants equal to the explicit id are filtered out).  Without that
no-canonicalization hypothesis the invariant fails
(see the counterexample). -/
theorem c4_profile_dedup (fetch : String → Except PyErr (Option HNInfo))
    (socials : List (String × String)) (cache : Cache) (name : String)
    (l : List HNInfo) (c2 : Cache) (tr : List String)
    (hwf : CacheWF cache)
    (hcanon : ∀ m, mainHnOf socials = some m →
      ∀ d, fetch m = .ok (some d) → d.username = m)
    (hres : enrich_one fetch socials cache name = .ok (l, c2, tr)) :
    (l.map HNInfo.username).Nodup := by
  cases hm : mainHnOf socials with
  | none =>
    simp only [enrich_one, hm] at hres
    cases hf : find_hn_usernames fetch cache name with
    | error e => rw [hf] at hres; exact Except.noConfusion hres
    | ok trip =>
      obtain ⟨variants, cache2, tr2⟩ := trip
      rw [hf] at hres
      simp only [Except.ok.injEq, Prod.mk.injEq, List.nil_append] at hres
      obtain ⟨hl, -, -⟩ := hres
      rw [← hl]
      exact ((find_result_nodup fetch cache name variants cache2 tr2 hwf
        hf).1).sublist ((List.filter_sublist variants).map HNInfo.username)
  | some m =>
    simp only [enrich_one, hm] at hres
    cases hfm : fetch m with
    | error e => simp only [hfm] at hres; exact Except.noConfusion hres
    | ok o =>
      cases o with
      | none =>
        simp only [hfm] at hres
        cases hf : find_hn_usernames fetch cache name with
        | error e => rw [hf] at hres; exact Except.noConfusion hres
        | ok trip =>
          obtain ⟨variants, cache2, tr2⟩ := trip
          rw [hf] at hres
          simp only [Except.ok.injEq, Prod.mk.injEq, List.nil_append] at hres
          obtain ⟨hl, -, -⟩ := hres
          rw [← hl]
          exact ((find_result_nodup fetch cache name variants cache2 tr2 hwf
            hf).1).sublist
            ((List.filter_sublist variants).map HNInfo.username)
      | some d =>
        have hdu : d.username = m := hcanon m hm d hfm
        simp only [hfm] at hres
        cases hf : find_hn_usernames fetch cache name with
        | error e => rw [hf] at hres; exact Except.noConfusion hres
        | ok trip =>
          obtain ⟨variants, cache2, tr2⟩ := trip
          rw [hf] at hres
          simp only [Except.ok.injEq, Prod.mk.injEq, List.singleton_append]
            at hres
          obtain ⟨hl, -, -⟩ := hres
          rw [← hl]
          have htail : ((variants.filter
              (fun i => i.username != "" && i.username != m)).map
              HNInfo.username).Nodup :=
            (find_result_nodup fetch cache name variants cache2
              tr2 hwf hf).1.sublist
              ((List.filter_sublist variants).map HNInfo.username)
          simp only [List.map_cons, List.nodup_cons]
          refine ⟨?_, htail⟩
          intro hmem
          obtain ⟨i, hi, hiu⟩ := List.mem_map.1 hmem
          have hp := (List.mem_filter.1 hi).2
          rw [Bool.and_eq_true] at hp
          have hne : i.username ≠ m := by
            have := hp.2
            simpa [bne_iff_ne] using this
          exact hne (hiu.trans hdu)

/-- An honest oracle for the C4 witness: the only resolvable candidate is
janedoe, resolved to itself. -/
def fetchHonest : String → Except PyErr (Option HNInfo) := fun c =>
  if c == "janedoe" then .ok (some ⟨"janedoe", none, none, none⟩)
  else .ok none

/-- C4 witness: the amended theorem at "Jane Doe" with no social links, an
empty cache and the honest oracle; the Profile is the single janedoe
match. -/
theorem c4_profile_dedup_witness :
    (([⟨"janedoe", none, none, none⟩] : List HNInfo).map
      HNInfo.username).Nodup :=
  c4_profile_dedup fetchHonest [] [] "Jane Doe"
    [⟨"janedoe", none, none, none⟩]
    [("Jane Doe", [⟨"janedoe", none, none, none⟩])]
    ["jane", "doe", "janedoe", "doejane", "jane.doe", "jane_doe",
     "jdoe", "janed", "janedoe"]
    (fun _ _ h => Option.noConfusion h)
    (fun _ hm => Option.noConfusion hm)
    rfl

/-- The response oracle of the C5 failing input: every attempt returns
HTTP 200 with a marker-free body whose page has a td labelled "about:"
with no following td cell. -/
def badAboutOracle : Nat → AttemptResult := fun _ =>
  .resp 200 ⟨"profile page", ⟨none, [⟨"about:", none⟩]⟩⟩

/-- The summarized per-candidate resolver of the C5 failing input: the
candidate "badpage" hits the malformed page, every other candidate is
cleanly not found. -/
def badFetch : String → Except PyErr (Option HNInfo) := fun c =>
  if c == "badpage" then (fetch_hn_details badAboutOracle c 3).1
  else .ok none

/-- C5 (code bug): an exception raised while processing a successfully
fetched response is NOT contained.  On the failing page the unguarded
`about_td.find_next_sibling('td').get_text(...)` raises AttributeError on
the first attempt; the exception leaves `_fetch_hn_details` (whose try
covers only the GET), leaves `find_hn_usernames`, and leaves
`_enrich_one` (whose try covers only the social-link fetch), so the
entity does not get an empty Profile — the run halts. -/
theorem c5_failure_containment_violated :
    fetch_hn_details badAboutOracle "badpage" 3 =
      (.error .attributeError, 1) ∧
    enrich_one badFetch [] [] "Badpage" = .error .attributeError :=
  ⟨rfl, rfl⟩

/-- Two enrichment tasks for distinct entities under `max_concurrency = 1`
(one semaphore permit). -/
def initCapOne : RunState :=
  ⟨[], 0, 0, 0, 1, [.notStarted "jane doe", .notStarted "john roe"]⟩

/-- C6 (code bug): the enrichment fan-out ignores the concurrency cap.
With `max_concurrency = 1`, a schedule in which both entity tasks issue
their first candidate lookup before either completes reaches 2
simultaneous in-flight requests while the semaphore still holds its one
permit untouched — `self.semaphore` is acquired only in `fetch_html`,
never in `_enrich_one` or `_fetch_hn_details`. -/
theorem c6_concurrency_cap_violated :
    (runSched (fun _ => none) initCapOne schedTwo).maxInFlight = 2 ∧
    (runSched (fun _ => none) initCapOne schedTwo).semAvail = 1 ∧
    (runSched (fun _ => none) initCapOne schedTwo).semAvail <
      (runSched (fun _ => none) initCapOne schedTwo).maxInFlight ∧
    (runSched (fun _ => none) initCapOne schedTwo).tasks =
      [.finished [], .finished []] :=
  ⟨rfl, rfl, by decide, rfl⟩

/-- A response whose body contains BOTH the transient-service-error marker
and the no-such-user marker, on every attempt. -/
def bothMarkersOracle : Nat → AttemptResult := fun _ =>
  .resp 200
    ⟨"We\x27re having some trouble serving your request No such user.",
     ⟨none, []⟩⟩

/-- C7 counterexample: a lookup response that contains the authoritative
no-such-identity marker but also the transient-error marker is retried,
not returned immediately — the trouble check comes first (line 210 before
line 213), so all 3 attempts run instead of the claimed single one. -/
theorem c7_counterexample :
    fetch_hn_details bothMarkersOracle "alice" 3 = (.ok none, 3) ∧
    (fetch_hn_details bothMarkersOracle "alice" 3).2 ≠ 1 :=
  ⟨rfl, by decide⟩

/-- C7 (amended): for every candidate whose FIRST attempt yields a 200
response whose body contains the no-such-user marker and does not contain
the transient-error marker, the resolver returns None (NotFound)
immediately after that one attempt — zero further attempts — regardless
of how many attempts remain. -/
theorem c7_hard_not_found (oracle : Nat → AttemptResult)
    (candidate : String) (attempts : Nat) (body : Body)
    (h0 : oracle 0 = .resp 200 body)
    (htr : strContains body.text troubleMarker = false)
    (hnf : strContains body.text noSuchUserMarker = true)
    (hat : 1 ≤ attempts) :
    fetch_hn_details oracle candidate attempts = (.ok none, 1) := by
  cases attempts with
  | zero => exact absurd hat (by omega)
  | succ n =>
    simp [fetch_hn_details, fetchGo, h0, htr, hnf]

/-- The response of the C7 witness: a clean not-found page. -/
def notFoundOracle : Nat → AttemptResult := fun _ =>
  .resp 200 ⟨"No such user.", ⟨none, []⟩⟩

/-- C7 witness: the amended theorem on a clean not-found response with 3
attempts available. -/
theorem c7_hard_not_found_witness :
    fetch_hn_details notFoundOracle "alice" 3 = (.ok none, 1) :=
  c7_hard_not_found notFoundOracle "alice" 3
    ⟨"No such user.", ⟨none, []⟩⟩ rfl (by decide) (by decide) (by decide)

/-- An attempt outcome on which the retry loop continues: an exception in
the `try` (transport failure), a non-200 status, or a 200 body carrying
the transient-service-error marker. -/
def isTransient : AttemptResult → Bool
  | .exn => true
  | .resp status body =>
    status != 200 || strContains body.text troubleMarker

theorem fetchGo_exhaust (oracle : Nat → AttemptResult) (candidate : String) :
    ∀ n i, (∀ j, j < n → isTransient (oracle (i + j)) = true) →
      fetchGo oracle candidate i n = (.ok none, i + n) := by
  intro n
  induction n with
  | zero => intro i _; simp [fetchGo]
  | succ n ih =>
    intro i h
    have h0 : isTransient (oracle i) = true := by
      have := h 0 (Nat.succ_pos n)
      simpa using this
    have hshift : ∀ j, j < n → isTransient (oracle (i + 1 + j)) = true := by
      intro j hj
      have := h (j + 1) (by omega)
      have harith : i + (j + 1) = i + 1 + j := by omega
      rwa [harith] at this
    have hrec := ih (i + 1) hshift
    have harith2 : i + 1 + n = i + (n + 1) := by omega
    cases ho : oracle i with
    | exn =>
      simp only [fetchGo, ho]
      rw [hrec, harith2]
    | resp status body =>
      rw [ho] at h0
      simp only [isTransient, Bool.or_eq_true, bne_iff_ne] at h0
      rcases h0 with hst | htr
      · simp only [fetchGo, ho, if_pos hst]
        rw [hrec, harith2]
      · by_cases hst : status = 200
        · simp only [fetchGo, ho, hst, ne_eq, not_true_eq_false, if_false,
            htr, if_true]
          rw [hrec, harith2]
        · simp only [fetchGo, ho, if_pos hst]
          rw [hrec, harith2]

/-- C8: for every candidate whose attempts all yield a transient outcome
(transient-service-error marker, transport exception, or non-2xx status),
the resolver performs exactly `attempts` attempts and then gives up,
returning None — the Exhausted outcome, which the code folds into the
same None as not-found.  Proxy rotation re-selects a random proxy each
attempt and has no effect on control flow. -/
theorem c8_exhaustion (oracle : Nat → AttemptResult) (candidate : String)
    (attempts : Nat)
    (h : ∀ j, j < attempts → isTransient (oracle j) = true) :
    fetch_hn_details oracle candidate attempts = (.ok none, attempts) := by
  have := fetchGo_exhaust oracle candidate attempts 0
    (by intro j hj; simpa using h j hj)
  simpa [fetch_hn_details] using this

/-- The response of the C8 witness: the transient-error page on every
attempt. -/
def troubleOracle : Nat → AttemptResult := fun _ =>
  .resp 200
    ⟨"We\x27re having some trouble serving your request", ⟨none, []⟩⟩

/-- C8 witness: with `attempts = 3` and 3 consecutive transient-error
responses, exactly 3 attempts are performed, then None. -/
theorem c8_exhaustion_witness :
    fetch_hn_details troubleOracle "alice" 3 = (.ok none, 3) :=
  c8_exhaustion troubleOracle "alice" 3 (by decide)

/-- The row an entity contributes to the CSV, when it contributes one. -/
def topRowOf (p : Person) : Option Row :=
  match get_top_username p.hn_profiles with
  | .ok (some t) => some (mkRow p t)
  | _ => none

theorem mkRow_email (p : Person) (t : TRecord) :
    (∀ u, (mkRow p t).hn_username = some u → u ≠ "" →
      (mkRow p t).email = u ++ "@ycombinator.com") ∧
    (((mkRow p t).hn_username = none ∨ (mkRow p t).hn_username = some "") →
      (mkRow p t).email = "") := by
  cases hu : t.username with
  | none => simp [mkRow, hu]
  | some u =>
    by_cases h : u = ""
    · simp [mkRow, hu, h]
    · constructor
      · intro u' h1 h2
        simp only [mkRow, hu] at h1 ⊢
        have huu : u = u' := Option.some.inj h1
        subst huu
        rw [if_pos h2]
      · intro hor
        simp only [mkRow, hu] at hor
        rcases hor with h2 | h2
        · exact Option.noConfusion h2
        · exact absurd (Option.some.inj h2) h

/-- C9 counterexample: an enriched entity with an empty Profile produces
NO flat record at all — `export_to_csv` writes a row only when
`get_top_username` returns one (`if top_profile:`), so this entity is
silently absent from the CSV rather than exported with empty fields. -/
theorem c9_counterexample :
    export_to_csv [⟨some "Ann", some "Partner", some "Founders", []⟩] =
      .ok [] :=
  rfl

/-- C9 (amended): when no entity's top-match selection raises, the rows
written are exactly one flat record {Name, Title, Category, HN Username,
Email, Created, Karma, About} per entity whose selection returns a
record — entities with an empty Profile (or a selection that returns
None) are omitted; within every written row, Email is
`<username>@ycombinator.com` exactly when the username is present and
non-empty, and the empty string otherwise. -/
theorem c9_export_rows (users : List Person)
    (hok : ∀ p ∈ users, isOkE (get_top_username p.hn_profiles) = true) :
    ∃ rows, export_to_csv users = .ok rows ∧
      rows = users.filterMap topRowOf ∧
      ∀ r ∈ rows,
        (∀ u, r.hn_username = some u → u ≠ "" →
          r.email = u ++ "@ycombinator.com") ∧
        ((r.hn_username = none ∨ r.hn_username = some "") →
          r.email = "") := by
  induction users with
  | nil => exact ⟨[], rfl, rfl, by simp⟩
  | cons p ps ih =>
    obtain ⟨rows, h1, h2, h3⟩ :=
      ih (fun q hq => hok q (List.mem_cons_of_mem p hq))
    have hp := hok p (List.mem_cons_self p ps)
    cases hT : get_top_username p.hn_profiles with
    | error e => rw [hT] at hp; simp [isOkE] at hp
    | ok o =>
      cases o with
      | none =>
        refine ⟨rows, ?_, ?_, h3⟩
        · simp only [export_to_csv, hT, h1]
        · rw [h2, List.filterMap_cons]
          simp only [topRowOf, hT]
      | some t =>
        refine ⟨mkRow p t :: rows, ?_, ?_, ?_⟩
        · simp only [export_to_csv, hT, h1]
        · rw [List.filterMap_cons]
          simp only [topRowOf, hT, h2]
        · intro r hr
          rcases List.mem_cons.1 hr with h4 | h4
          · rw [h4]; exact mkRow_email p t
          · exact h3 r h4

/-- The entities of the C9 witness: one with a resolved profile, one with
an empty Profile. -/
def c9wUsers : List Person :=
  [⟨some "Bob", some "P", some "F",
    [⟨some "bob", some "2010", .vstr "7", none⟩]⟩,
   ⟨some "Ann", some "Partner", some "Founders", []⟩]

/-- C9 witness: the amended export theorem on one exportable and one
empty-Profile entity. -/
theorem c9_export_rows_witness :
    ∃ rows, export_to_csv c9wUsers = .ok rows ∧
      rows = c9wUsers.filterMap topRowOf ∧
      ∀ r ∈ rows,
        (∀ u, r.hn_username = some u → u ≠ "" →
          r.email = u ++ "@ycombinator.com") ∧
        ((r.hn_username = none ∨ r.hn_username = some "") →
          r.email = "") :=
  c9_export_rows c9wUsers (by decide)

theorem listCompCategory_eq_filter (c : String) (data : List Person) :
    listCompCategory c data =
      data.filter (fun p => p.category == some c) := by
  induction data with
  | nil => rfl
  | cons p ps ih =>
    by_cases h : (p.category == some c) = true
    · simp only [listCompCategory, if_pos h, List.filter_cons, h, ih,
        if_true]
    · simp only [listCompCategory, if_neg h, List.filter_cons, h, ih,
        Bool.false_eq_true, if_false]

/-- C10: filtering by category None is the identity (the input list is
returned unchanged), and filtering by a concrete category returns exactly
the records whose category field equals it, in input order (the result is
a sublist of the input). -/
theorem c10_filter_by_category (data : List Person) (c : String) :
    get_users_by_category data none = data ∧
    List.Sublist (get_users_by_category data (some c)) data ∧
    ∀ p, p ∈ get_users_by_category data (some c) ↔
      p ∈ data ∧ p.category = some c := by
  refine ⟨rfl, ?_, ?_⟩
  · rw [show get_users_by_category data (some c) = listCompCategory c data
      from rfl, listCompCategory_eq_filter]
    exact List.filter_sublist data
  · intro p
    rw [show get_users_by_category data (some c) = listCompCategory c data
      from rfl, listCompCategory_eq_filter, List.mem_filter]
    constructor
    · rintro ⟨h1, h2⟩
      exact ⟨h1, by simpa using h2⟩
    · rintro ⟨h1, h2⟩
      exact ⟨h1, by simpa using h2⟩

/-- The data of the C10 witness: two Founders records around one Partner
record. -/
def c10wData : List Person :=
  [⟨some "A", none, some "Founders", []⟩,
   ⟨some "B", none, some "Partners", []⟩,
   ⟨some "C", none, some "Founders", []⟩]

/-- C10 witness: the filter theorem instantiated at concrete data and the
category "Founders". -/
theorem c10_filter_by_category_witness :
    get_users_by_category c10wData none = c10wData ∧
    List.Sublist (get_users_by_category c10wData (some "Founders"))
      c10wData ∧
    ∀ p, p ∈ get_users_by_category c10wData (some "Founders") ↔
      p ∈ c10wData ∧ p.category = some "Founders" :=
  c10_filter_by_category c10wData "Founders"

end YC
